import Mathlib

/-
Verification of the TinyLink URL-shortener core (Node.js + Express + PostgreSQL).

The embedding models the `links` table of src/db/init.js as a list of rows in
insertion order together with the SERIAL id counter, and the route handlers of
src/server.js as pure functions on that state.  `NOW()` timestamps are passed
in as a `Nat` parameter, and the outputs of `Math.random` are passed in as
explicit parameters with their JavaScript ranges as hypotheses.
-/

/-- A row of the `links` table (src/db/init.js): id SERIAL, short_code VARCHAR(8)
UNIQUE, target_url TEXT, total_clicks INTEGER default 0, creation_count INTEGER
default 1, last_clicked TIMESTAMP nullable, created_at / updated_at TIMESTAMP. -/
structure Link where
  id : Nat
  short_code : String
  target_url : String
  total_clicks : Nat
  creation_count : Nat
  last_clicked : Option Nat
  created_at : Nat
  updated_at : Nat
deriving Repr, DecidableEq

/-- Database state: the rows of `links` in insertion order, plus the next SERIAL id. -/
structure DB where
  links : List Link
  nextId : Nat
deriving Repr, DecidableEq

/-- The error responses of the API (src/server.js): 400 Invalid URL,
400 bad code format, 409 Code already exists, 404 Link not found. -/
inductive Err where
  | invalidURL
  | invalidCode
  | codeConflict
  | notFound
deriving Repr, DecidableEq

/-- Result tag of POST /api/links: 201 Created, or 200 with the message
"URL already exists. Creation count incremented." -/
inductive CreateTag where
  | created
  | incremented
deriving Repr, DecidableEq

/-- The 62-character alphabet of generateShortCode (src/server.js line 30). -/
def chars : String := "ABCDEFGHIJKLMNOPQRSTUVWXYZabcdefghijklmnopqrstuvwxyz0123456789"

/-- generateShortCode (src/server.js lines 29-37).  `rand3` is the value of
Math.floor(Math.random() * 3) (so rand3 < 3) and `rand62 i` is the value of
Math.floor(Math.random() * chars.length) at loop iteration i (so rand62 i < 62). -/
def generateShortCode (rand3 : Nat) (rand62 : Nat → Nat) : String :=
  String.mk ((List.range (rand3 + 6)).map (fun i => chars.data.getD (rand62 i) 'A'))

/-- One character of the regex class [A-Za-z0-9] (src/server.js line 49). -/
def isAlphaNumChar (c : Char) : Bool :=
  (decide ('A' ≤ c) && decide (c ≤ 'Z')) ||
  (decide ('a' ≤ c) && decide (c ≤ 'z')) ||
  (decide ('0' ≤ c) && decide (c ≤ '9'))

/-- isValidCode (src/server.js lines 48-51): the regex test
/^[A-Za-z0-9]\x7b6,8\x7d$/ , i.e. 6 to 8 characters all from [A-Za-z0-9]. -/
def isValidCode (code : String) : Bool :=
  decide (6 ≤ code.length) && decide (code.length ≤ 8) && code.data.all isAlphaNumChar

/-- A character allowed in a URL scheme after the first (WHATWG URL standard). -/
def isSchemeRestChar (c : Char) : Bool :=
  c.isAlpha || c.isDigit || c = '+' || c = '-' || c = '.'

/-- Consume scheme characters up to the first colon, returning the (reversed)
accumulated scheme and the remainder after the colon; fails if no colon is
reached or a non-scheme character appears first. -/
def takeScheme : List Char → List Char → Option (List Char × List Char)
  | _, [] => none
  | acc, c :: cs =>
    if c = ':' then some (acc.reverse, cs)
    else if isSchemeRestChar c then takeScheme (c :: acc) cs
    else none

/-- Split a URL string into its (lowercased) scheme and the part after the
colon, when it starts with a well-formed scheme `[A-Za-z][A-Za-z0-9+.-]*:`. -/
def splitScheme (s : String) : Option (String × String) :=
  match s.data with
  | [] => none
  | c :: cs =>
    if c.isAlpha then
      match takeScheme [c] cs with
      | some (sch, rest) => some (String.mk (sch.map Char.toLower), String.mk rest)
      | none => none
    else none

/-- The special schemes of the WHATWG URL standard. -/
def specialSchemes : List String := ["ftp", "file", "http", "https", "ws", "wss"]

/-- Model of the platform WHATWG URL constructor used by isValidUrl
(`new URL(url)` is platform code, not repository code): parsing succeeds when
the string starts with a well-formed scheme, and, for the special schemes other
than file, a nonempty host follows.  Userinfo, port and IP validation are not
modelled; no claim depends on them. -/
def urlParses (s : String) : Bool :=
  match splitScheme s with
  | none => false
  | some (sch, rest) =>
    if specialSchemes.contains sch && !(sch = "file") then
      let afterSlashes := rest.data.dropWhile (fun c => c = '/' || c = '\\')
      let host := afterSlashes.takeWhile
        (fun c => !(c = '/' || c = '?' || c = '#' || c = '\\'))
      !host.isEmpty
    else true

/-- isValidUrl (src/server.js lines 39-46): true iff `new URL(url)` does not
throw.  Note: no restriction on the scheme is applied. -/
def isValidUrl (url : String) : Bool := urlParses url

/-- The spec's URL validation requirement: parseable as an absolute URL whose
scheme is http or https (spec.md section 4.2, C2).  Stated from the spec's
words to compare with `isValidUrl` above. -/
def specValidUrl (s : String) : Bool :=
  urlParses s &&
    (match splitScheme s with
     | some (sch, _) => sch = "http" || sch = "https"
     | none => false)

/-- The uniqueness loop of the auto-generated-code path (src/server.js lines
131-145): `gen i` is the output of the i-th call of generateShortCode; starting
at index i, return the first candidate whose short_code is not already present.
`fuel` bounds how many candidates we unfold; `none` means the while loop has
not terminated within `fuel` checks (the source imposes no bound). -/
def allocateLoop (db : DB) (gen : Nat → String) : Nat → Nat → Option String
  | _, 0 => none
  | i, fuel + 1 =>
    if (db.links.find? (fun l => l.short_code = gen i)).isSome then
      allocateLoop db gen (i + 1) fuel
    else some (gen i)

/-- The row inserted by POST /api/links (src/server.js lines 103-106 and
147-150, the same INSERT in both paths): total_clicks 0, creation_count 1,
last_clicked NULL, created_at = updated_at = NOW(), id from the SERIAL. -/
def freshLink (db : DB) (c u : String) (now : Nat) : Link :=
  { id := db.nextId, short_code := c, target_url := u, total_clicks := 0,
    creation_count := 1, last_clicked := none, created_at := now,
    updated_at := now }

/-- The custom-code path of POST /api/links (src/server.js lines 86-109):
validate the code, check existence, insert. -/
def createWithCode (db : DB) (target_url c : String) (now : Nat) :
    Except Err (CreateTag × Link) × DB :=
  if !isValidCode c then (.error .invalidCode, db)
  else if (db.links.find? (fun l => l.short_code = c)).isSome then
    (.error .codeConflict, db)
  else
    (.ok (.created, freshLink db c target_url now),
     ⟨db.links ++ [freshLink db c target_url now], db.nextId + 1⟩)

/-- The row update performed by the creation-count UPDATE of src/server.js
lines 119-122: creation_count + 1 and updated_at = NOW(). -/
def bumped (x : Link) (now : Nat) : Link :=
  { x with creation_count := x.creation_count + 1, updated_at := now }

/-- The row update performed by the redirect UPDATE of src/server.js line 232:
total_clicks + 1 and last_clicked = NOW() (updated_at untouched). -/
def clicked (x : Link) (now : Nat) : Link :=
  { x with total_clicks := x.total_clicks + 1, last_clicked := some now }

/-- The no-custom-code path of POST /api/links (src/server.js lines 111-152):
look up by exact target_url; if found, UPDATE creation_count and updated_at on
that row id and return the updated row; otherwise run the uniqueness loop on
generated codes and insert.  `none` models a non-terminating uniqueness loop
(and the unreachable case of an UPDATE that returns no row). -/
def createNoCode (db : DB) (target_url : String) (gen : Nat → String)
    (fuel now : Nat) : Option (Except Err (CreateTag × Link) × DB) :=
  match db.links.find? (fun l => l.target_url = target_url) with
  | some row =>
    let newLinks := db.links.map (fun l =>
      if l.id = row.id then bumped l now else l)
    match newLinks.filter (fun l => l.id = row.id) with
    | [] => none
    | r :: _ => some (.ok (.incremented, r), ⟨newLinks, db.nextId⟩)
  | none =>
    match allocateLoop db gen 0 fuel with
    | none => none
    | some code =>
      some (.ok (.created, freshLink db code target_url now),
        ⟨db.links ++ [freshLink db code target_url now], db.nextId + 1⟩)

/-- POST /api/links (src/server.js lines 73-157).  `short_code = some ""` takes
the no-custom-code path because the empty string is falsy in JavaScript. -/
def create (db : DB) (target_url : String) (short_code : Option String)
    (gen : Nat → String) (fuel now : Nat) :
    Option (Except Err (CreateTag × Link) × DB) :=
  if target_url = "" || !isValidUrl target_url then some (.error .invalidURL, db)
  else
    match short_code with
    | some c =>
      if c = "" then createNoCode db target_url gen fuel now
      else some (createWithCode db target_url c now)
    | none => createNoCode db target_url gen fuel now

/-- GET /api/links/:code (src/server.js lines 177-199): SELECT by short_code,
404 if absent.  No mutation. -/
def getLink (db : DB) (code : String) : Except Err Link :=
  match db.links.find? (fun l => l.short_code = code) with
  | none => .error .notFound
  | some l => .ok l

/-- DELETE /api/links/:code (src/server.js lines 202-224): DELETE by
short_code RETURNING *; 404 when no row was deleted. -/
def deleteLink (db : DB) (code : String) : Except Err Unit × DB :=
  if (db.links.filter (fun l => l.short_code = code)).isEmpty then
    (.error .notFound, db)
  else
    (.ok (), ⟨db.links.filter (fun l => !(l.short_code = code)), db.nextId⟩)

/-- GET /:code, the redirect handler (src/server.js lines 227-246): a single
UPDATE links SET total_clicks = total_clicks + 1, last_clicked = NOW() WHERE
short_code = code RETURNING *; 404 when no row matched, otherwise the updated
row (whose target_url drives the 302 redirect).  Note the UPDATE does not
touch updated_at. -/
def recordClick (db : DB) (code : String) (now : Nat) : Except Err Link × DB :=
  let newLinks := db.links.map (fun l =>
    if l.short_code = code then clicked l now else l)
  match newLinks.find? (fun l => l.short_code = code) with
  | none => (.error .notFound, db)
  | some l => (.ok l, ⟨newLinks, db.nextId⟩)

/-- The per-code uniqueness invariant: short_codes are pairwise distinct
(the UNIQUE constraint of src/db/init.js). -/
def codesUnique (db : DB) : Prop :=
  db.links.Pairwise (fun a b => a.short_code ≠ b.short_code)

/-- Row ids are pairwise distinct (the SERIAL primary key of src/db/init.js). -/
def idsUnique (db : DB) : Prop :=
  db.links.Pairwise (fun a b => a.id ≠ b.id)

instance (db : DB) : Decidable (codesUnique db) := by
  unfold codesUnique; infer_instance

instance (db : DB) : Decidable (idsUnique db) := by
  unfold idsUnique; infer_instance

/-! ### Helper lemmas -/

theorem isValidCode_ne_empty {c : String} (h : isValidCode c = true) :
    ¬ c = "" := by
  intro he; subst he; exact absurd h (by decide)

theorem isValidUrl_ne_empty {u : String} (h : isValidUrl u = true) :
    ¬ u = "" := by
  intro he; subst he; exact absurd h (by decide)

theorem list_map_eq_self {α : Type} {l : List α} {f : α → α}
    (h : ∀ x ∈ l, f x = x) : l.map f = l := by
  induction l with
  | nil => rfl
  | cons a t ih =>
    rw [List.map_cons, h a (by simp), ih (fun x hx => h x (by simp [hx]))]

theorem list_map_split {pre post : List Link} {l : Link} {f : Link → Link}
    (hpre : ∀ x ∈ pre, f x = x) (hpost : ∀ x ∈ post, f x = x) :
    (pre ++ l :: post).map f = pre ++ f l :: post := by
  rw [List.map_append, List.map_cons, list_map_eq_self hpre,
    list_map_eq_self hpost]

theorem list_find?_split {pre post : List Link} {l : Link} {p : Link → Bool}
    (hpre : ∀ x ∈ pre, p x = false) (hl : p l = true) :
    (pre ++ l :: post).find? p = some l := by
  rw [List.find?_append]
  have h1 : pre.find? p = none :=
    List.find?_eq_none.mpr (fun x hx => by simp [hpre x hx])
  rw [h1, Option.none_or, List.find?_cons_of_pos _ hl]

theorem pairwise_split {R : Link → Link → Prop} {xs pre post : List Link}
    {l : Link} (hs : xs = pre ++ l :: post) (hp : xs.Pairwise R) :
    (∀ x ∈ pre, R x l) ∧ (∀ x ∈ post, R l x) := by
  subst hs
  rw [List.pairwise_append] at hp
  obtain ⟨_, h2, h3⟩ := hp
  rw [List.pairwise_cons] at h2
  exact ⟨fun x hx => h3 x hx l (by simp), fun x hx => h2.1 x hx⟩

/-! ### Claim theorems -/

/-- C6: `isWellFormed` (isValidCode in the source) returns true for exactly
the strings of length 6 to 8 whose every character is in [A-Za-z0-9], and
false for all other strings. -/
theorem C6_isValidCode_iff (s : String) :
    isValidCode s = true ↔
      6 ≤ s.length ∧ s.length ≤ 8 ∧
        ∀ c ∈ s.data, ('A' ≤ c ∧ c ≤ 'Z') ∨ ('a' ≤ c ∧ c ≤ 'z') ∨
          ('0' ≤ c ∧ c ≤ '9') := by
  simp [isValidCode, isAlphaNumChar, List.all_eq_true, and_assoc, or_assoc]

/-- Witness for C6 at concrete inputs: a 6-character alphanumeric string is
accepted, a string with a separator is rejected. -/
theorem C6_witness :
    isValidCode "xYz123" = true ∧ isValidCode "abc-123" = false :=
  ⟨(C6_isValidCode_iff "xYz123").mpr (by decide), by decide⟩

/-- C7: every string produced by generateShortCode has length 6, 7 or 8,
every character drawn from the 62-character alphanumeric alphabet, and is
accepted by isValidCode.  `rand3 < 3` and `rand62 i < 62` are the ranges
guaranteed by Math.random. -/
theorem C7_generate_wellFormed (rand3 : Nat) (rand62 : Nat → Nat)
    (h3 : rand3 < 3) (h62 : ∀ i, rand62 i < 62) :
    ((generateShortCode rand3 rand62).length = 6 ∨
      (generateShortCode rand3 rand62).length = 7 ∨
      (generateShortCode rand3 rand62).length = 8) ∧
    (∀ c ∈ (generateShortCode rand3 rand62).data, c ∈ chars.data) ∧
    isValidCode (generateShortCode rand3 rand62) = true := by
  have hlen : (generateShortCode rand3 rand62).length = rand3 + 6 := by
    simp [generateShortCode]
  have hdata : (generateShortCode rand3 rand62).data =
      (List.range (rand3 + 6)).map (fun i => chars.data.getD (rand62 i) 'A') :=
    rfl
  have hclen : chars.data.length = 62 := by decide
  have hchars : ∀ c ∈ (generateShortCode rand3 rand62).data, c ∈ chars.data := by
    intro c hc
    rw [hdata] at hc
    obtain ⟨i, _, hgc⟩ := List.mem_map.mp hc
    have hi62 : rand62 i < chars.data.length := by rw [hclen]; exact h62 i
    rw [List.getD_eq_getElem?_getD, List.getElem?_eq_getElem hi62,
      Option.getD_some] at hgc
    rw [← hgc]
    exact List.getElem_mem hi62
  refine ⟨by rw [hlen]; omega, hchars, ?_⟩
  have halpha : ∀ c ∈ chars.data, isAlphaNumChar c = true := by decide
  have hall : ∀ c ∈ (generateShortCode rand3 rand62).data,
      isAlphaNumChar c = true :=
    fun c hc => halpha c (hchars c hc)
  simp only [isValidCode, Bool.and_eq_true, decide_eq_true_eq,
    List.all_eq_true, hlen]
  exact ⟨⟨by omega, by omega⟩, hall⟩

/-- Witness for C7 at a concrete random draw. -/
theorem C7_witness :
    ((generateShortCode 0 (fun _ => 0)).length = 6 ∨
      (generateShortCode 0 (fun _ => 0)).length = 7 ∨
      (generateShortCode 0 (fun _ => 0)).length = 8) ∧
    (∀ c ∈ (generateShortCode 0 (fun _ => 0)).data, c ∈ chars.data) ∧
    isValidCode (generateShortCode 0 (fun _ => 0)) = true :=
  C7_generate_wellFormed 0 (fun _ => 0) (by decide) (by intro i; show (0:Nat) < 62; decide)

/-- C2 (code bug): the server validates only that `new URL(target_url)`
succeeds, with no restriction of the scheme to http(s), although the repo's
README ("URL Validation - Must include http:// or https://") and the spec
require it.  "mailto:user@example.com" is not an http(s) URL, yet create
accepts it and inserts a Link instead of failing with InvalidURL. -/
theorem C2_scheme_not_checked :
    specValidUrl "mailto:user@example.com" = false ∧
    isValidUrl "mailto:user@example.com" = true ∧
    create ⟨[], 1⟩ "mailto:user@example.com" (some "abcdef")
        (fun _ => "aaaaaa") 1 0 =
      some (Except.ok (CreateTag.created,
        { id := 1, short_code := "abcdef",
          target_url := "mailto:user@example.com", total_clicks := 0,
          creation_count := 1, last_clicked := none,
          created_at := 0, updated_at := 0 }),
        ⟨[{ id := 1, short_code := "abcdef",
            target_url := "mailto:user@example.com", total_clicks := 0,
            creation_count := 1, last_clicked := none,
            created_at := 0, updated_at := 0 }], 2⟩) := by
  refine ⟨by decide, by decide, rfl⟩

/-- Full characterization of the uniqueness loop from any start index: it
returns the first free candidate, and is still running after `fuel` checks
when all of the first `fuel` candidates collide. -/
theorem allocateLoop_spec (db : DB) (gen : Nat → String) :
    ∀ fuel start,
      ((∀ k, k < fuel →
          (db.links.find? (fun l => l.short_code = gen (start + k))).isSome) →
        allocateLoop db gen start fuel = none) ∧
      (∀ k, k < fuel →
        (db.links.find? (fun l => l.short_code = gen (start + k))).isSome
            = false →
        (∀ m, m < k →
          (db.links.find? (fun l => l.short_code = gen (start + m))).isSome) →
        allocateLoop db gen start fuel = some (gen (start + k))) := by
  intro fuel
  induction fuel with
  | zero =>
    intro start
    exact ⟨fun _ => rfl, fun k hk => absurd hk (Nat.not_lt_zero k)⟩
  | succ n ih =>
    intro start
    constructor
    · intro h
      have h0 := h 0 (Nat.succ_pos n)
      simp only [Nat.add_zero] at h0
      rw [allocateLoop, if_pos h0]
      exact (ih (start + 1)).1 (fun k hk => by
        have hh := h (k + 1) (Nat.succ_lt_succ hk)
        have e : start + (k + 1) = start + 1 + k := by omega
        rwa [e] at hh)
    · intro k hk hfree hprev
      cases k with
      | zero =>
        simp only [Nat.add_zero] at hfree
        rw [allocateLoop, if_neg (by simp [hfree]), Nat.add_zero]
      | succ m =>
        have h0 := hprev 0 (Nat.succ_pos m)
        simp only [Nat.add_zero] at h0
        rw [allocateLoop, if_pos h0]
        have e : start + (m + 1) = start + 1 + m := by omega
        have hh := (ih (start + 1)).2 m (Nat.lt_of_succ_lt_succ hk)
          (by rwa [e] at hfree)
          (fun j hj => by
            have hp := hprev (j + 1) (Nat.succ_lt_succ hj)
            have e2 : start + (j + 1) = start + 1 + j := by omega
            rwa [e2] at hp)
        rwa [← e] at hh

/-- A concrete Link and store used in several concrete checks below. -/
def linkA : Link :=
  { id := 1, short_code := "aaaaaa", target_url := "https://a.example/",
    total_clicks := 0, creation_count := 1, last_clicked := none,
    created_at := 0, updated_at := 0 }

/-- Store holding just linkA. -/
def dbA : DB := ⟨[linkA], 2⟩

/-- C4 counterexample: with every candidate colliding, the loop is still
running after 1001 attempts - it has surfaced no exhaustion error after the
claimed bound of 1000 failed attempts (its result type has no error at all). -/
theorem C4_counterexample :
    allocateLoop dbA (fun _ => "aaaaaa") 0 1001 = none :=
  (allocateLoop_spec dbA (fun _ => "aaaaaa") 1001 0).1
    (by intro k hk; show (dbA.links.find? _).isSome; decide)

/-- C4 (amended): the rejection-sampling loop of the generated-code path is
unbounded - for every n, if all of the first n candidates collide the loop is
still running after n attempts (never an exhaustion result), and it returns
the first non-colliding candidate as soon as one exists. -/
theorem C4_loop_unbounded (db : DB) (gen : Nat → String) (n : Nat) :
    ((∀ i, i < n → (db.links.find? (fun l => l.short_code = gen i)).isSome) →
        allocateLoop db gen 0 n = none) ∧
    (∀ j, j < n →
      (db.links.find? (fun l => l.short_code = gen j)).isSome = false →
      (∀ i, i < j → (db.links.find? (fun l => l.short_code = gen i)).isSome) →
      allocateLoop db gen 0 n = some (gen j)) := by
  have h := allocateLoop_spec db gen n 0
  simp only [Nat.zero_add] at h
  exact h

/-- Witness for C4 at concrete inputs: a colliding stream keeps the loop
running; a free candidate is returned. -/
theorem C4_witness :
    allocateLoop dbA (fun _ => "aaaaaa") 0 3 = none ∧
    allocateLoop dbA (fun _ => "bbbbbb") 0 3 = some "bbbbbb" := by
  constructor
  · exact (C4_loop_unbounded dbA (fun _ => "aaaaaa") 3).1
      (by intro i hi; show (dbA.links.find? _).isSome; decide)
  · exact (C4_loop_unbounded dbA (fun _ => "bbbbbb") 3).2 0 (by decide)
      (by show (dbA.links.find? _).isSome = false; decide)
      (by intro i hi; exact absurd hi (Nat.not_lt_zero i))


/-- C1 counterexample: clicking linkA (updated_at = 0) at time 5 returns the
post-mutation Link with updated_at still 0, not the current time 5 - the
redirect UPDATE sets only total_clicks and last_clicked. -/
theorem C1_counterexample :
    (recordClick dbA "aaaaaa" 5).1 =
      Except.ok
        { id := 1,
          short_code := "aaaaaa",
          target_url := "https://a.example/",
          total_clicks := 1,
          creation_count := 1,
          last_clicked := some 5,
          created_at := 0,
          updated_at := 0 } ∧ (0 : Nat) ≠ 5 :=
  ⟨rfl, by decide⟩

/-- C1 (amended): recordClick on an existing Link is a single atomic mutation
that increments that Link's total_clicks by exactly 1 and sets last_clicked to
the current time (updated_at is NOT touched), returns the post-mutation Link
(including its target_url), and leaves every other Link and every other field
unchanged. -/
theorem C1_recordClick (db : DB) (now : Nat) (pre post : List Link) (l : Link)
    (hu : codesUnique db) (hsplit : db.links = pre ++ l :: post) :
    recordClick db l.short_code now =
      (Except.ok (clicked l now),
       ⟨pre ++ clicked l now :: post, db.nextId⟩) := by
  obtain ⟨hpre, hpost⟩ :=
    pairwise_split hsplit (show db.links.Pairwise _ from hu)
  have hmap : db.links.map (fun x =>
      if x.short_code = l.short_code then clicked x now else x) =
        pre ++ clicked l now :: post := by
    rw [hsplit, list_map_split (fun x hx => if_neg (hpre x hx))
      (fun x hx => if_neg (fun he => hpost x hx he.symm))]
    rw [if_pos rfl]
  have hfind : (pre ++ clicked l now :: post).find?
      (fun x => x.short_code = l.short_code) = some (clicked l now) :=
    list_find?_split (fun x hx => by simp [hpre x hx]) (by simp [clicked])
  simp only [recordClick, hmap, hfind]

/-- Witness for C1 at a concrete store and time. -/
theorem C1_witness :
    recordClick dbA "aaaaaa" 7 =
      (Except.ok (clicked linkA 7), ⟨[clicked linkA 7], 2⟩) :=
  C1_recordClick dbA 7 [] [] linkA (by decide) rfl

/-- createNoCode can never produce a typed error: each of its paths either
returns a success or is still looping. -/
theorem createNoCode_no_error (db : DB) (u : String) (gen : Nat → String)
    (fuel now : Nat) (e : Err) (db' : DB) :
    createNoCode db u gen fuel now ≠ some (Except.error e, db') := by
  simp only [createNoCode]
  split
  · split
    · simp
    · simp
  · split
    · simp
    · simp

/-- A failing createWithCode leaves the store unchanged. -/
theorem createWithCode_error_state (db : DB) (u c : String) (now : Nat)
    (e : Err) (db' : DB)
    (h : createWithCode db u c now = (Except.error e, db')) : db' = db := by
  unfold createWithCode at h
  split at h
  · exact (congrArg Prod.snd h).symm
  · split at h
    · exact (congrArg Prod.snd h).symm
    · have h1 := congrArg Prod.fst h
      simp at h1

/-- C8: on a code with no active Link, get, delete and recordClick all fail
with NotFound and mutate nothing; and every failing create leaves the store
unchanged. -/
theorem C8_not_found_no_mutation (db : DB) (code u : String)
    (sc : Option String) (gen : Nat → String) (fuel now : Nat)
    (habs : ∀ l ∈ db.links, l.short_code ≠ code) :
    getLink db code = Except.error Err.notFound ∧
    deleteLink db code = (Except.error Err.notFound, db) ∧
    recordClick db code now = (Except.error Err.notFound, db) ∧
    (∀ e db', create db u sc gen fuel now = some (Except.error e, db') →
      db' = db) := by
  have hfind : db.links.find? (fun l => l.short_code = code) = none :=
    List.find?_eq_none.mpr (fun x hx => by simp [habs x hx])
  have hfilter : db.links.filter (fun l => l.short_code = code) = [] :=
    List.filter_eq_nil_iff.mpr (fun a ha => by simp [habs a ha])
  have hmapid : db.links.map (fun x =>
      if x.short_code = code then clicked x now else x) = db.links :=
    list_map_eq_self (fun x hx => if_neg (habs x hx))
  refine ⟨?_, ?_, ?_, ?_⟩
  · simp only [getLink, hfind]
  · simp only [deleteLink, hfilter]
    simp
  · simp only [recordClick, hmapid, hfind]
  · intro e db' h
    simp only [create] at h
    split at h
    · exact (congrArg Prod.snd (Option.some.inj h)).symm
    · split at h
      · split at h
        · exact absurd h (createNoCode_no_error db u gen fuel now e db')
        · exact createWithCode_error_state db u _ now e db'
            (Option.some.inj h)
      · exact absurd h (createNoCode_no_error db u gen fuel now e db')

/-- Witness for C8 at a concrete store, absent code and invalid create. -/
theorem C8_witness :
    getLink dbA "zzzzzz" = Except.error Err.notFound ∧
    deleteLink dbA "zzzzzz" = (Except.error Err.notFound, dbA) ∧
    recordClick dbA "zzzzzz" 9 = (Except.error Err.notFound, dbA) ∧
    (∀ e db', create dbA "not-a-url" none (fun _ => "cccccc") 1 3 =
        some (Except.error e, db') → db' = dbA) :=
  C8_not_found_no_mutation dbA "zzzzzz" "not-a-url" none (fun _ => "cccccc")
    3 9 (by decide)

/-- C9: the lookup operations never validate the shape of the code - a string
failing the 6-8 alphanumeric pattern that matches no stored code yields
NotFound, never InvalidCode. -/
theorem C9_no_shape_validation (db : DB) (code : String) (now : Nat)
    ( _hbad : isValidCode code = false)
    (habs : ∀ l ∈ db.links, l.short_code ≠ code) :
    getLink db code = Except.error Err.notFound ∧
    (deleteLink db code).1 = Except.error Err.notFound ∧
    (recordClick db code now).1 = Except.error Err.notFound ∧
    getLink db code ≠ Except.error Err.invalidCode ∧
    (deleteLink db code).1 ≠ Except.error Err.invalidCode ∧
    (recordClick db code now).1 ≠ Except.error Err.invalidCode := by
  have hfind : db.links.find? (fun l => l.short_code = code) = none :=
    List.find?_eq_none.mpr (fun x hx => by simp [habs x hx])
  have hfilter : db.links.filter (fun l => l.short_code = code) = [] :=
    List.filter_eq_nil_iff.mpr (fun a ha => by simp [habs a ha])
  have hmapid : db.links.map (fun x =>
      if x.short_code = code then clicked x now else x) = db.links :=
    list_map_eq_self (fun x hx => if_neg (habs x hx))
  have hget : getLink db code = Except.error Err.notFound := by
    simp only [getLink, hfind]
  have hdel : (deleteLink db code).1 = Except.error Err.notFound := by
    simp only [deleteLink, hfilter]
    simp
  have hclick : (recordClick db code now).1 = Except.error Err.notFound := by
    simp only [recordClick, hmapid, hfind]
  refine ⟨hget, hdel, hclick, ?_, ?_, ?_⟩
  · rw [hget]; simp
  · rw [hdel]; simp
  · rw [hclick]; simp

/-- Witness for C9: a malformed code ("ab!" fails the pattern) that is not
stored yields NotFound on all three lookups. -/
theorem C9_witness :
    getLink dbA "ab!" = Except.error Err.notFound ∧
    (deleteLink dbA "ab!").1 = Except.error Err.notFound ∧
    (recordClick dbA "ab!" 4).1 = Except.error Err.notFound ∧
    getLink dbA "ab!" ≠ Except.error Err.invalidCode ∧
    (deleteLink dbA "ab!").1 ≠ Except.error Err.invalidCode ∧
    (recordClick dbA "ab!" 4).1 ≠ Except.error Err.invalidCode :=
  C9_no_shape_validation dbA "ab!" 4 (by decide) (by decide)

/-- With a valid URL and no custom code, create reduces to createNoCode. -/
theorem create_none_eq (db : DB) (u : String) (gen : Nat → String)
    (fuel now : Nat) (hurl : isValidUrl u = true) :
    create db u none gen fuel now = createNoCode db u gen fuel now := by
  have hne : decide (u = "") = false :=
    decide_eq_false (isValidUrl_ne_empty hurl)
  simp [create, hne, hurl]

/-- With a valid URL and a nonempty custom code, create reduces to
createWithCode. -/
theorem create_some_eq (db : DB) (u c : String) (gen : Nat → String)
    (fuel now : Nat) (hurl : isValidUrl u = true) (hcne : ¬ c = "") :
    create db u (some c) gen fuel now = some (createWithCode db u c now) := by
  have hne : decide (u = "") = false :=
    decide_eq_false (isValidUrl_ne_empty hurl)
  simp [create, hne, hurl, hcne]

/-- The incremented path of createNoCode: when the first Link whose
target_url equals the request URL is `l` (exact string match) and row ids are
unique, the store is updated by bumping exactly that row. -/
theorem createNoCode_incr (db : DB) (u : String) (gen : Nat → String)
    (fuel now : Nat) (pre post : List Link) (l : Link)
    (hsplit : db.links = pre ++ l :: post)
    (hl : l.target_url = u)
    (hpreU : ∀ x ∈ pre, x.target_url ≠ u)
    (hpreId : ∀ x ∈ pre, x.id ≠ l.id)
    (hpostId : ∀ x ∈ post, x.id ≠ l.id) :
    createNoCode db u gen fuel now =
      some (Except.ok (CreateTag.incremented, bumped l now),
        ⟨pre ++ bumped l now :: post, db.nextId⟩) := by
  have hfindU : db.links.find? (fun x => x.target_url = u) = some l := by
    rw [hsplit]
    exact list_find?_split (fun x hx => by simp [hpreU x hx]) (by simp [hl])
  have hmap : db.links.map (fun x => if x.id = l.id then bumped x now else x)
      = pre ++ bumped l now :: post := by
    rw [hsplit, list_map_split (fun x hx => if_neg (hpreId x hx))
      (fun x hx => if_neg (hpostId x hx))]
    rw [if_pos rfl]
  have hfilter : (pre ++ bumped l now :: post).filter (fun x => x.id = l.id)
      = [bumped l now] := by
    rw [List.filter_append]
    have h1 : pre.filter (fun x => x.id = l.id) = [] :=
      List.filter_eq_nil_iff.mpr (fun a ha => by simp [hpreId a ha])
    have h2 : post.filter (fun x => x.id = l.id) = [] :=
      List.filter_eq_nil_iff.mpr (fun a ha => by simp [hpostId a ha])
    rw [h1, List.filter_cons_of_pos (by simp [bumped]), h2]
    simp
  simp only [createNoCode, hfindU, hmap, hfilter]

/-- C5: a codeless create for a target_url already held by a Link inserts
nothing: it bumps that Link's creation_count by exactly 1, sets updated_at,
keeps its code, and returns it tagged incremented; the match is exact string
equality on target_url. -/
theorem C5_codeless_create_increments (db : DB) (u : String)
    (gen : Nat → String) (fuel now : Nat) (pre post : List Link) (l : Link)
    (hids : idsUnique db) (hurl : isValidUrl u = true)
    (hsplit : db.links = pre ++ l :: post) (hl : l.target_url = u)
    (hpreU : ∀ x ∈ pre, x.target_url ≠ u) :
    create db u none gen fuel now =
      some (Except.ok (CreateTag.incremented, bumped l now),
        ⟨pre ++ bumped l now :: post, db.nextId⟩) ∧
    (bumped l now).short_code = l.short_code ∧
    (bumped l now).target_url = l.target_url ∧
    (bumped l now).total_clicks = l.total_clicks ∧
    (bumped l now).creation_count = l.creation_count + 1 ∧
    (bumped l now).updated_at = now := by
  obtain ⟨hpreId, hpostId⟩ :=
    pairwise_split hsplit (show db.links.Pairwise _ from hids)
  refine ⟨?_, rfl, rfl, rfl, rfl, rfl⟩
  rw [create_none_eq db u gen fuel now hurl]
  exact createNoCode_incr db u gen fuel now pre post l hsplit hl hpreU
    hpreId (fun x hx => (hpostId x hx).symm)

/-- Witness for C5: repeating a codeless create for linkA's URL bumps linkA. -/
theorem C5_witness :
    create dbA "https://a.example/" none (fun _ => "cccccc") 1 6 =
      some (Except.ok (CreateTag.incremented, bumped linkA 6),
        ⟨[bumped linkA 6], 2⟩) ∧
    (bumped linkA 6).short_code = linkA.short_code ∧
    (bumped linkA 6).target_url = linkA.target_url ∧
    (bumped linkA 6).total_clicks = linkA.total_clicks ∧
    (bumped linkA 6).creation_count = linkA.creation_count + 1 ∧
    (bumped linkA 6).updated_at = 6 :=
  C5_codeless_create_increments dbA "https://a.example/" (fun _ => "cccccc")
    1 6 [] [] linkA (by decide) (by decide) rfl rfl (by simp)

/-- A code returned by the uniqueness loop is not present in the store. -/
theorem allocateLoop_fresh (db : DB) (gen : Nat → String) :
    ∀ fuel i code, allocateLoop db gen i fuel = some code →
      db.links.find? (fun l => l.short_code = code) = none := by
  intro fuel
  induction fuel with
  | zero => intro i code h; exact absurd h (by simp [allocateLoop])
  | succ n ih =>
    intro i code h
    rw [allocateLoop] at h
    by_cases hc : (db.links.find? (fun l => l.short_code = gen i)).isSome
    · rw [if_pos hc] at h
      exact ih (i + 1) code h
    · rw [if_neg hc] at h
      have hcode := Option.some.inj h
      rw [← hcode]
      exact Option.not_isSome_iff_eq_none.mp hc

/-- Appending a Link whose code is fresh preserves code uniqueness. -/
theorem pairwise_codes_append (xs : List Link) (link : Link)
    (hu : xs.Pairwise (fun a b => a.short_code ≠ b.short_code))
    (hf : ∀ x ∈ xs, x.short_code ≠ link.short_code) :
    (xs ++ [link]).Pairwise (fun a b => a.short_code ≠ b.short_code) := by
  rw [List.pairwise_append]
  refine ⟨hu, by simp, fun a ha b hb => ?_⟩
  rw [List.mem_singleton] at hb
  subst hb
  exact hf a ha

/-- Mapping a code-preserving row transformation preserves code uniqueness. -/
theorem pairwise_codes_map (xs : List Link) (f : Link → Link)
    (hf : ∀ x, (f x).short_code = x.short_code)
    (hu : xs.Pairwise (fun a b => a.short_code ≠ b.short_code)) :
    (xs.map f).Pairwise (fun a b => a.short_code ≠ b.short_code) :=
  List.Pairwise.map f (fun a b hab => by rw [hf a, hf b]; exact hab) hu

/-- createWithCode on a valid, fresh code inserts exactly one new Link. -/
theorem createWithCode_fresh (db : DB) (u c : String) (now : Nat)
    (hc : isValidCode c = true)
    (hfree : ∀ x ∈ db.links, x.short_code ≠ c) :
    createWithCode db u c now =
      (Except.ok (CreateTag.created, freshLink db c u now),
       ⟨db.links ++ [freshLink db c u now], db.nextId + 1⟩) := by
  have hfind : db.links.find? (fun l => l.short_code = c) = none :=
    List.find?_eq_none.mpr (fun x hx => by simp [hfree x hx])
  simp [createWithCode, hc, hfind]

/-- createWithCode on a valid code already held by a Link fails with
CodeConflict and changes nothing. -/
theorem createWithCode_conflict (db : DB) (u c : String) (now : Nat)
    (hc : isValidCode c = true)
    (hex : ∃ l ∈ db.links, l.short_code = c) :
    createWithCode db u c now = (Except.error Err.codeConflict, db) := by
  obtain ⟨l, hmem, hlc⟩ := hex
  have hfind : (db.links.find? (fun l => l.short_code = c)).isSome :=
    List.find?_isSome.mpr ⟨l, hmem, by simp [hlc]⟩
  simp [createWithCode, hc, hfind]

/-- After deleteLink, no remaining row carries the deleted code. -/
theorem deleteLink_removes (db : DB) (c : String) :
    ∀ x ∈ (deleteLink db c).2.links, x.short_code ≠ c := by
  unfold deleteLink
  split
  case isTrue hemp =>
    intro x hx
    have h := List.filter_eq_nil_iff.mp (List.isEmpty_iff.mp hemp) x hx
    simpa using h
  case isFalse hne =>
    intro x hx
    have h := List.of_mem_filter hx
    simpa using h

/-- deleteLink preserves code uniqueness. -/
theorem deleteLink_preserves_unique (db : DB) (c : String)
    (hu : codesUnique db) : codesUnique (deleteLink db c).2 := by
  unfold deleteLink
  split
  · exact hu
  · exact List.Pairwise.filter _ hu

/-- recordClick preserves code uniqueness. -/
theorem recordClick_preserves_unique (db : DB) (code : String) (now : Nat)
    (hu : codesUnique db) : codesUnique (recordClick db code now).2 := by
  simp only [recordClick]
  split
  · exact hu
  · exact pairwise_codes_map db.links _
      (fun x => by split <;> rfl) hu

/-- createNoCode preserves code uniqueness. -/
theorem createNoCode_preserves_unique (db : DB) (u : String)
    (gen : Nat → String) (fuel now : Nat)
    (r : Except Err (CreateTag × Link)) (db' : DB) (hu : codesUnique db)
    (h : createNoCode db u gen fuel now = some (r, db')) : codesUnique db' := by
  simp only [createNoCode] at h
  split at h
  · split at h
    · exact absurd h (by simp)
    · cases h
      exact pairwise_codes_map db.links _
        (fun x => by split <;> rfl) hu
  · split at h
    · exact absurd h (by simp)
    case _ code hloop =>
      cases h
      have hfind := allocateLoop_fresh db gen fuel 0 code hloop
      exact pairwise_codes_append db.links _ hu
        (fun x hx => by
          have hne := List.find?_eq_none.mp hfind x hx
          simpa using hne)

/-- createWithCode preserves code uniqueness. -/
theorem createWithCode_preserves_unique (db : DB) (u c : String) (now : Nat)
    (r : Except Err (CreateTag × Link)) (db' : DB) (hu : codesUnique db)
    (h : createWithCode db u c now = (r, db')) : codesUnique db' := by
  unfold createWithCode at h
  split at h
  · cases h
    exact hu
  · split at h
    case isTrue hfind =>
      cases h
      exact hu
    case isFalse hfind =>
      cases h
      refine pairwise_codes_append db.links _ hu (fun x hx => ?_)
      intro he
      exact hfind (List.find?_isSome.mpr ⟨x, hx, by simp [he, freshLink]⟩)

/-- Every terminating create preserves code uniqueness. -/
theorem create_preserves_unique (db : DB) (u : String) (sc : Option String)
    (gen : Nat → String) (fuel now : Nat)
    (r : Except Err (CreateTag × Link)) (db' : DB) (hu : codesUnique db)
    (h : create db u sc gen fuel now = some (r, db')) : codesUnique db' := by
  simp only [create] at h
  split at h
  · cases h
    exact hu
  · split at h
    · split at h
      · exact createNoCode_preserves_unique db u gen fuel now r db' hu h
      · exact createWithCode_preserves_unique db u _ now r db' hu
          (Option.some.inj h)
    · exact createNoCode_preserves_unique db u gen fuel now r db' hu h

/-- C3: per-code uniqueness - create with a custom code already held fails
with CodeConflict and inserts nothing; every operation preserves the
pairwise-distinct-codes invariant; and a deleted code may be assigned again
(uniqueness is checked against currently-existing rows only). -/
theorem C3_code_uniqueness (db : DB) (u c : String) (gen : Nat → String)
    (fuel now : Nat)
    (hu : codesUnique db) (hurl : isValidUrl u = true)
    (hc : isValidCode c = true) (hex : ∃ l ∈ db.links, l.short_code = c) :
    create db u (some c) gen fuel now =
      some (Except.error Err.codeConflict, db) ∧
    (∀ u' sc r db', create db u' sc gen fuel now = some (r, db') →
      codesUnique db') ∧
    (∀ code, codesUnique (deleteLink db code).2) ∧
    (∀ code now', codesUnique (recordClick db code now').2) ∧
    create (deleteLink db c).2 u (some c) gen fuel now =
      some (Except.ok (CreateTag.created,
          freshLink (deleteLink db c).2 c u now),
        ⟨(deleteLink db c).2.links ++
            [freshLink (deleteLink db c).2 c u now],
         (deleteLink db c).2.nextId + 1⟩) := by
  refine ⟨?_, ?_, ?_, ?_, ?_⟩
  · rw [create_some_eq db u c gen fuel now hurl (isValidCode_ne_empty hc),
      createWithCode_conflict db u c now hc hex]
  · intro u' sc r db' h
    exact create_preserves_unique db u' sc gen fuel now r db' hu h
  · intro code
    exact deleteLink_preserves_unique db code hu
  · intro code now'
    exact recordClick_preserves_unique db code now' hu
  · rw [create_some_eq _ u c gen fuel now hurl (isValidCode_ne_empty hc),
      createWithCode_fresh _ u c now hc (deleteLink_removes db c)]

/-- Witness for C3: claiming linkA's code conflicts; deleting then recreating
it succeeds. -/
theorem C3_witness :
    create dbA "https://b.example/" (some "aaaaaa") (fun _ => "dddddd") 1 8 =
      some (Except.error Err.codeConflict, dbA) ∧
    (∀ u' sc r db',
      create dbA u' sc (fun _ => "dddddd") 1 8 = some (r, db') →
        codesUnique db') ∧
    (∀ code, codesUnique (deleteLink dbA code).2) ∧
    (∀ code now', codesUnique (recordClick dbA code now').2) ∧
    create (deleteLink dbA "aaaaaa").2 "https://b.example/" (some "aaaaaa")
        (fun _ => "dddddd") 1 8 =
      some (Except.ok (CreateTag.created,
          freshLink (deleteLink dbA "aaaaaa").2 "aaaaaa"
            "https://b.example/" 8),
        ⟨(deleteLink dbA "aaaaaa").2.links ++
            [freshLink (deleteLink dbA "aaaaaa").2 "aaaaaa"
              "https://b.example/" 8],
         (deleteLink dbA "aaaaaa").2.nextId + 1⟩) :=
  C3_code_uniqueness dbA "https://b.example/" "aaaaaa" (fun _ => "dddddd") 1 8
    (by decide) (by decide) (by decide) (by decide)

/-- C10: target_url is not unique across Links - with a Link for `u` already
stored, create with that same URL and a fresh well-formed custom code inserts
a second Link with the same target_url (the custom-code path never looks up
by URL), and a later codeless create for `u` bumps only the first matching
Link, leaving the second untouched. -/
theorem C10_url_not_unique (db : DB) (u c : String) (gen : Nat → String)
    (fuel now now2 : Nat) (pre post : List Link) (l : Link)
    (hurl : isValidUrl u = true) (hc : isValidCode c = true)
    (hfree : ∀ x ∈ db.links, x.short_code ≠ c)
    (hsplit : db.links = pre ++ l :: post) (hl : l.target_url = u)
    (hpreU : ∀ x ∈ pre, x.target_url ≠ u)
    (hids : idsUnique db) (hnext : ∀ x ∈ db.links, x.id ≠ db.nextId) :
    create db u (some c) gen fuel now =
      some (Except.ok (CreateTag.created, freshLink db c u now),
        ⟨db.links ++ [freshLink db c u now], db.nextId + 1⟩) ∧
    (freshLink db c u now).target_url = l.target_url ∧
    (freshLink db c u now).short_code ≠ l.short_code ∧
    create ⟨db.links ++ [freshLink db c u now], db.nextId + 1⟩ u none gen
        fuel now2 =
      some (Except.ok (CreateTag.incremented, bumped l now2),
        ⟨pre ++ bumped l now2 :: (post ++ [freshLink db c u now]),
         db.nextId + 1⟩) := by
  have hmem : l ∈ db.links := by rw [hsplit]; simp
  obtain ⟨hpreId, hpostId⟩ :=
    pairwise_split hsplit (show db.links.Pairwise _ from hids)
  refine ⟨?_, hl.symm, ?_, ?_⟩
  · rw [create_some_eq db u c gen fuel now hurl (isValidCode_ne_empty hc),
      createWithCode_fresh db u c now hc hfree]
  · exact fun he => hfree l hmem he.symm
  · rw [create_none_eq _ u gen fuel now2 hurl]
    have hsplit1 :
        (DB.mk (db.links ++ [freshLink db c u now]) (db.nextId + 1)).links
          = pre ++ l :: (post ++ [freshLink db c u now]) := by
      show db.links ++ [freshLink db c u now] = _
      rw [hsplit, List.append_assoc, List.cons_append]
    exact createNoCode_incr _ u gen fuel now2 pre
      (post ++ [freshLink db c u now]) l hsplit1 hl hpreU hpreId
      (fun x hx => by
        rcases List.mem_append.mp hx with hx1 | hx2
        · exact (hpostId x hx1).symm
        · rw [List.mem_singleton] at hx2
          subst hx2
          exact fun he => hnext l hmem he.symm)

/-- Witness for C10: a second Link for linkA's URL under custom code
"bbbbbb", then a codeless create bumping only linkA. -/
theorem C10_witness :
    create dbA "https://a.example/" (some "bbbbbb") (fun _ => "eeeeee") 1 3 =
      some (Except.ok (CreateTag.created,
          freshLink dbA "bbbbbb" "https://a.example/" 3),
        ⟨dbA.links ++ [freshLink dbA "bbbbbb" "https://a.example/" 3],
         dbA.nextId + 1⟩) ∧
    (freshLink dbA "bbbbbb" "https://a.example/" 3).target_url
      = linkA.target_url ∧
    (freshLink dbA "bbbbbb" "https://a.example/" 3).short_code
      ≠ linkA.short_code ∧
    create ⟨dbA.links ++ [freshLink dbA "bbbbbb" "https://a.example/" 3],
        dbA.nextId + 1⟩ "https://a.example/" none (fun _ => "eeeeee") 1 4 =
      some (Except.ok (CreateTag.incremented, bumped linkA 4),
        ⟨[] ++ bumped linkA 4 ::
            ([] ++ [freshLink dbA "bbbbbb" "https://a.example/" 3]),
         dbA.nextId + 1⟩) :=
  C10_url_not_unique dbA "https://a.example/" "bbbbbb" (fun _ => "eeeeee")
    1 3 4 [] [] linkA (by decide) (by decide) (by decide) rfl rfl (by simp)
    (by decide) (by decide)
